import Mathlib

/-!
Shallow embedding of the jira-exporter scripts
(`export_jira_space_settings.py` and `main.py`).

JSON payloads are modelled by the inductive `Json`; Python `dict.get`
becomes an association-list lookup, Python truthiness becomes `truthy`,
and the short-circuiting `x or y` on optional JSON values becomes `pyOr`.
Network calls are abstracted into explicit response values (`Except`
results or oracle functions), so every fetcher becomes a pure function of
the sequence of responses it would observe.
-/

/-- JSON values, as decoded by `response.json()`. -/
inductive Json where
  | null : Json
  | bool (b : Bool) : Json
  | num (n : Int) : Json
  | str (s : String) : Json
  | arr (items : List Json) : Json
  | obj (fields : List (String × Json)) : Json
deriving Repr

/-- First-match association-list lookup, modelling Python `dict.get(key)`
(dict keys are unique in Python; the first binding wins here). -/
def alookup {α : Type} : List (String × α) → String → Option α
  | [], _ => none
  | (k, v) :: rest, key => if k = key then some v else alookup rest key

/-- `payload.get(key)` on a decoded JSON value: only objects have keys. -/
def jget : Json → String → Option Json
  | .obj fields, key => alookup fields key
  | _, _ => none

/-- Python truthiness of a JSON value (`bool(x)`). -/
def truthy : Json → Bool
  | .null => false
  | .bool b => b
  | .num n => n != 0
  | .str s => s != ""
  | .arr items => !items.isEmpty
  | .obj fields => !fields.isEmpty

/-- Python `a or b` on two `dict.get` results (`None` and falsy values
fall through to the right operand). -/
def pyOr (a b : Option Json) : Option Json :=
  match a with
  | some v => if truthy v then some v else b
  | none => b

/-- The pervasive `isinstance(x, str) and x` guard: a present, non-empty
JSON string. -/
def asNonemptyStr : Option Json → Option String
  | some (.str s) => if s = "" then none else some s
  | _ => none

/-- `first.get("workflowSchemeId") or first.get("id")` followed by the
non-empty-string check, applied only when `first` is a dict
(`_extract_workflow_scheme_id`, inner probes). -/
def innerSchemeId (first : Json) : Option String :=
  match first with
  | .obj _ => asNonemptyStr (pyOr (jget first "workflowSchemeId") (jget first "id"))
  | _ => none

/-- `_extract_workflow_scheme_id` (export_jira_space_settings.py,
lines 158-196): probes several response shapes in order and returns the
first non-empty string id, else `none`. The early `return` statements of
the source become a left-biased `<|>` chain. -/
def extractWorkflowSchemeId (payload : Json) : Option String :=
  (match payload with
   | .obj _ =>
     (asNonemptyStr (jget payload "workflowSchemeId")) <|>
     (match jget payload "workflowScheme" with
      | some (.obj wsFields) => asNonemptyStr (alookup wsFields "id")
      | _ => none) <|>
     (match jget payload "values" with
      | some (.arr (first :: _)) => innerSchemeId first
      | _ => none) <|>
     (match jget payload "projects" with
      | some (.obj prFields) =>
        (match alookup prFields "values" with
         | some (.arr (first2 :: _)) => innerSchemeId first2
         | _ => none)
      | _ => none)
   | _ => none) <|>
  (match payload with
   | .arr (first :: _) => innerSchemeId first
   | _ => none)

/-- Python `mapping[k] = v` on a dict modelled as an association list:
an existing binding is updated in place, a new key is appended. -/
def upsert {α : Type} : List (String × α) → String → α → List (String × α)
  | [], key, v => [(key, v)]
  | (k, w) :: rest, key, v =>
    if k = key then (key, v) :: rest else (k, w) :: upsert rest key v

/-- `_extract_scheme_workflow_mapping` (lines 199-236): default workflow
name plus issue-type-id → workflow-name mapping, accepting both the
object and the list form of `issueTypeMappings`. -/
def extractSchemeWorkflowMapping (schemeDetail : Json) :
    Option String × List (String × String) :=
  match schemeDetail with
  | .obj fields =>
    let defaultName : Option String :=
      match alookup fields "defaultWorkflow" with
      | some (.str s) => some s
      | _ => none
    match alookup fields "issueTypeMappings" with
    | some (.obj items) =>
      (defaultName,
       items.foldl (fun m kv =>
         match kv.2 with
         | .str v => if kv.1 ≠ "" ∧ v ≠ "" then upsert m kv.1 v else m
         | _ => m) [])
    | some (.arr items) =>
      (defaultName,
       items.foldl (fun m item =>
         match item with
         | .obj _ =>
           match asNonemptyStr (pyOr (jget item "issueTypeId") (jget item "issueType")),
                 asNonemptyStr (pyOr (jget item "workflow") (jget item "workflowName")) with
           | some k, some v => upsert m k v
           | _, _ => m
         | _ => m) [])
    | _ => (defaultName, [])
  | _ => (none, [])

/-- `WorkflowTransition` (TypedDict, `total=False`): a field may be
absent, modelled with `Option`. When present, `name`/`to_status` are
strings and `from_statuses` is a list of strings, as the annotations
state. -/
structure WorkflowTransition where
  id : Option String := none
  name : Option String := none
  from_statuses : Option (List String) := none
  to_status : Option String := none
deriving Repr, DecidableEq

/-- `TransitionSummary` (TypedDict, `total=False`); `name`/`to_status`
are always set where summaries are built, only `id` is optional. -/
structure TransitionSummary where
  id : Option String := none
  name : String
  to_status : String
deriving Repr, DecidableEq

/-- The per-entry body of the loop in `_extract_workflow_transitions`
(lines 260-310): `none` models `continue`. -/
def convEntry (tr : Json) : Option WorkflowTransition :=
  match tr with
  | .obj trFields =>
    match asNonemptyStr (alookup trFields "name") with
    | none => none
    | some name =>
      let toStatus : Option String :=
        (match alookup trFields "to" with
         | some (.obj toFields) => asNonemptyStr (alookup toFields "name")
         | _ => none) <|>
        asNonemptyStr (alookup trFields "end")
      match toStatus with
      | none => none
      | some toSt =>
        let fromDerived : List String :=
          match alookup trFields "from" with
          | some (.obj fromFields) =>
            (match asNonemptyStr (alookup fromFields "name") with
             | some n => [n]
             | none => [])
          | some (.arr items) =>
            items.filterMap (fun f =>
              match f with
              | .obj fFields => asNonemptyStr (alookup fFields "name")
              | _ => none)
          | some (.str s) => if s = "" then [] else [s]
          | _ => []
        let fromStatuses := if fromDerived = [] then ["*"] else fromDerived
        some { name := some name,
               to_status := some toSt,
               from_statuses := some fromStatuses,
               id := asNonemptyStr (alookup trFields "id") }
  | _ => none

/-- `_extract_workflow_transitions` (lines 239-312): locate the workflow
object (`payload` itself, else `payload.values[0]`, else
`payload.workflows[0]`), then convert each entry of its `transitions`
list, skipping unusable entries. -/
def extractWorkflowTransitions (payload : Json) : List WorkflowTransition :=
  let workflow : Json :=
    match payload with
    | .obj fields =>
      (match alookup fields "values" with
       | some (.arr (v :: _)) => v
       | _ =>
         match alookup fields "workflows" with
         | some (.arr (w :: _)) => w
         | _ => payload)
    | _ => payload
  match workflow with
  | .obj wfFields =>
    (match alookup wfFields "transitions" with
     | some (.arr transitionsRaw) => transitionsRaw.filterMap convEntry
     | _ => [])
  | _ => []

/-- The summary built at lines 333-336: `id` is copied only when it is a
present, non-empty string. `getD` defaults are irrelevant in context
(the caller only builds a summary once the fields are present). -/
def mkSummary (t : WorkflowTransition) : TransitionSummary :=
  { name := t.name.getD "",
    to_status := t.to_status.getD "",
    id := match t.id with
          | some s => if s = "" then none else some s
          | none => none }

/-- The wildcard test at line 338:
`from_statuses == ["*"] or "*" in from_statuses`. -/
def isGlobalT (t : WorkflowTransition) : Bool :=
  match t.from_statuses with
  | some fs => fs == ["*"] || fs.contains "*"
  | none => false

/-- `t.name`/`t.to_status`/`t.from_statuses` are all present — the
negation of the skip condition at lines 326-331 (the `isinstance`
checks always succeed on present fields given the TypedDict types). -/
def presentT (t : WorkflowTransition) : Bool :=
  t.name.isSome && t.to_status.isSome && t.from_statuses.isSome

/-- `by_from` is a `defaultdict(list)`, modelled as a total function
with default `[]` (a key is never left mapped to an empty bucket by the
source, so the key set is recoverable from the non-empty buckets). -/
def BucketMap : Type := String → List TransitionSummary

/-- One iteration of the loop in `_build_transition_index`
(lines 322-344). -/
def indexStep (acc : BucketMap × List TransitionSummary)
    (tr : WorkflowTransition) : BucketMap × List TransitionSummary :=
  if presentT tr then
    let summary := mkSummary tr
    if isGlobalT tr then
      (acc.1, acc.2 ++ [summary])
    else
      ((tr.from_statuses.getD []).foldl
        (fun m fromStatus =>
          if fromStatus ≠ "" then
            (fun s => if s = fromStatus then m s ++ [summary] else m s)
          else m) acc.1,
       acc.2)
  else acc

/-- `_build_transition_index` (lines 315-346). -/
def buildTransitionIndex (transitions : List WorkflowTransition) :
    BucketMap × List TransitionSummary :=
  transitions.foldl indexStep ((fun _ => []), [])

/-- An exception raised while attempting one candidate request:
an HTTP error status (`requests.HTTPError` from `raise_for_status`) or
a JSON-decode failure (`ValueError` from `response.json()`). -/
inductive FetchFailure where
  | http (status : Nat) : FetchFailure
  | decodeError : FetchFailure
deriving Repr, DecidableEq

/-- The aggregated `requests.HTTPError(...) from last_error` raised when
every candidate is exhausted; `cause` is the attached cause chain
(`none` when no candidate raised). -/
structure AggregatedError where
  cause : Option FetchFailure
deriving Repr, DecidableEq

/-- Errors escaping `_fetch_project_id`: either the propagated transport
or decode failure of its single request, or the `ValueError` raised on a
malformed (non-object / non-string-id) payload. -/
inductive ProjectIdError where
  | transport (e : FetchFailure) : ProjectIdError
  | valueError : ProjectIdError
deriving Repr, DecidableEq

/-- `_fetch_project_id` (lines 349-358), with the single `_get_json`
call abstracted into its observed outcome `response`. There is no
candidate list here: exactly one request outcome is consumed. -/
def fetchProjectId (response : Except FetchFailure Json) :
    Except ProjectIdError String :=
  match response with
  | .error e => .error (.transport e)
  | .ok payload =>
    match payload with
    | .obj fields =>
      (match alookup fields "id" with
       | some (.str s) => .ok s
       | _ => .error .valueError)
    | _ => .error .valueError

/-- The candidate loop of `_fetch_workflow_transitions_by_name`
(lines 423-436), abstracting each candidate's `_get_json` outcome into
one element of `responses`; `lastError` threads the `last_error`
variable. A successful call whose extracted transition list is empty
falls through to the next candidate without touching `last_error`. -/
def transitionsFetchLoop (lastError : Option FetchFailure) :
    List (Except FetchFailure Json) →
    Except AggregatedError (List WorkflowTransition)
  | [] => .error ⟨lastError⟩
  | response :: rest =>
    match response with
    | .error e => transitionsFetchLoop (some e) rest
    | .ok payload =>
      let transitions := extractWorkflowTransitions payload
      if transitions.isEmpty then transitionsFetchLoop lastError rest
      else .ok transitions

/-- `_fetch_workflow_transitions_by_name` (lines 414-436) as a function
of the per-candidate request outcomes. -/
def fetchWorkflowTransitionsByName (responses : List (Except FetchFailure Json)) :
    Except AggregatedError (List WorkflowTransition) :=
  transitionsFetchLoop none responses

/-- `IssueTypeStatus` (TypedDict), one per issue type of the project. -/
structure IssueTypeStatus where
  issue_type : String
  available_statuses : List String
  workflow_name : Option String
  transitions : List WorkflowTransition
deriving Repr, DecidableEq

/-- State threaded through the per-issue-type loop of
`_fetch_project_statuses` (lines 489-530). `fetchLog` is an observer
recording, in order, each workflow name for which a remote transition
fetch was actually performed (one entry per cache miss); the source
performs the network call exactly where an entry is appended. -/
structure AssembleState where
  statuses : List IssueTypeStatus
  cache : List (String × List WorkflowTransition)
  fetchLog : List String
deriving Repr

/-- Truthiness of an optional string (`if workflow_name:` patterns). -/
def truthyStrOpt : Option String → Bool
  | some s => s != ""
  | none => false

/-- Lines 503-507: prefer the per-issue-type mapping entry (when the id
is truthy and mapped), else a truthy default workflow, else `none`. -/
def resolveWorkflowName (issueTypeToWorkflow : List (String × String))
    (defaultWorkflow : Option String) (issueTypeId : Option String) :
    Option String :=
  if truthyStrOpt issueTypeId then
    match alookup issueTypeToWorkflow (issueTypeId.getD "") with
    | some w => some w
    | none => if truthyStrOpt defaultWorkflow then defaultWorkflow else none
  else if truthyStrOpt defaultWorkflow then defaultWorkflow else none

/-- The `available_statuses` comprehension at lines 520-524: named
entries of `issue_type.get("statuses", [])` (a non-list value there
would raise in Python and is outside the modelled domain). -/
def availableStatuses (issueType : Json) : List String :=
  match (jget issueType "statuses").getD (Json.arr []) with
  | .arr items =>
    items.filterMap (fun s =>
      match s with
      | .obj sFields =>
        (match alookup sFields "name" with
         | some (.str n) => some n
         | _ => none)
      | _ => none)
  | _ => []

/-- Lines 509-515: the cached-or-fetched transition list for a resolved
workflow name, together with the updated cache and fetch log (the log
gains one entry exactly when the remote fetch at line 512 runs). -/
def transitionsForWorkflow (fetchTrans : String → List WorkflowTransition)
    (st : AssembleState) (workflowName : Option String) :
    List WorkflowTransition ×
      List (String × List WorkflowTransition) × List String :=
  if truthyStrOpt workflowName then
    let w := workflowName.getD ""
    match alookup st.cache w with
    | some cached => (cached, st.cache, st.fetchLog)
    | none =>
      (fetchTrans w, st.cache ++ [(w, fetchTrans w)], st.fetchLog ++ [w])
  else ([], st.cache, st.fetchLog)

/-- One iteration of the issue-type loop of `_fetch_project_statuses`
(lines 492-528), with the remote transition fetch abstracted into the
oracle `fetchTrans` (the source's call either returns a list or raises,
aborting the whole assembly; the oracle models the returning runs). -/
def assembleStep (fetchTrans : String → List WorkflowTransition)
    (issueTypeToWorkflow : List (String × String))
    (defaultWorkflow : Option String)
    (st : AssembleState) (issueType : Json) : AssembleState :=
  match issueType with
  | .obj itFields =>
    (match alookup itFields "name" with
     | some (.str issueTypeName) =>
       if issueTypeName = "" then st
       else
         let issueTypeId : Option String :=
           match alookup itFields "id" with
           | some (.str s) => some s
           | _ => none
         let workflowName :=
           resolveWorkflowName issueTypeToWorkflow defaultWorkflow issueTypeId
         let next := transitionsForWorkflow fetchTrans st workflowName
         { statuses := st.statuses ++
             [{ issue_type := issueTypeName,
                available_statuses := availableStatuses issueType,
                workflow_name := workflowName,
                transitions := next.1 }],
           cache := next.2.1,
           fetchLog := next.2.2 }
     | _ => st)
  | _ => st

/-- The assembly portion of `_fetch_project_statuses` downstream of the
scheme lookups: fold the issue-type loop over the statuses payload,
starting from an empty workflow cache. -/
def assembleProjectStatuses (fetchTrans : String → List WorkflowTransition)
    (issueTypeToWorkflow : List (String × String))
    (defaultWorkflow : Option String)
    (statusesPayload : List Json) : AssembleState :=
  statusesPayload.foldl (assembleStep fetchTrans issueTypeToWorkflow defaultWorkflow)
    ⟨[], [], []⟩

/-- Outcome of one `requests.post` round of the ticket-listing script
(`main.py`): an exception during the request, or a response with a
status code and decoded JSON body. -/
inductive PageResult where
  | exn : PageResult
  | resp (status : Nat) (data : Json) : PageResult
deriving Repr

/-- The pagination loop of `main.py` (lines 36-68), with the successive
request outcomes abstracted into the list `rounds` (the `nextPageToken`
only shapes the outgoing request body, so it does not appear as loop
state here). A truthy non-list `issues` value is outside the modelled
domain (Python would iterate or raise on it). -/
def collectIssuesLoop (acc : List Json) : List PageResult → List Json
  | [] => acc
  | round :: rest =>
    match round with
    | .exn => acc
    | .resp status data =>
      if status ≠ 200 then acc
      else
        let issuesJ := (jget data "issues").getD (Json.arr [])
        if truthy issuesJ then
          match issuesJ with
          | .arr issues =>
            let acc2 := acc ++ issues
            (match jget data "nextPageToken" with
             | some tok => if truthy tok then collectIssuesLoop acc2 rest else acc2
             | none => acc2)
          | _ => acc
        else acc

/-- The ticket-listing script's accumulated `all_issues`, starting from
the empty accumulator. -/
def collectIssues (rounds : List PageResult) : List Json :=
  collectIssuesLoop [] rounds

/-! ### Specification-side definitions
The following definitions transcribe the claims' wording (rather than
the source's control flow) and are compared against the embeddings
above. -/

/-- The first `some` in a list of probe results ("returns the first
non-empty string found along this precedence order"). -/
def firstFound : List (Option String) → Option String
  | [] => none
  | some s :: _ => some s
  | none :: rest => firstFound rest

/-- Spec probe: `x.workflowSchemeId or x.id` as a non-empty string. -/
def orProbeId (v : Json) : Option String :=
  asNonemptyStr (pyOr (jget v "workflowSchemeId") (jget v "id"))

/-- Spec probe 1: the key `workflowSchemeId` as a direct string. -/
def probeDirect (p : Json) : Option String :=
  asNonemptyStr (jget p "workflowSchemeId")

/-- Spec probe 2: `workflowScheme.id`. -/
def probeWorkflowScheme (p : Json) : Option String :=
  asNonemptyStr (jget ((jget p "workflowScheme").getD Json.null) "id")

/-- Spec probe 3: `values[0].workflowSchemeId or values[0].id`. -/
def probeValues (p : Json) : Option String :=
  match jget p "values" with
  | some (.arr (first :: _)) => orProbeId first
  | _ => none

/-- Spec probe 4: `projects.values[0].workflowSchemeId or .id`. -/
def probeProjects (p : Json) : Option String :=
  match jget ((jget p "projects").getD Json.null) "values" with
  | some (.arr (first :: _)) => orProbeId first
  | _ => none

/-- Spec probe 5: when the payload is itself a list, its first
element's `workflowSchemeId or id`. -/
def probeListPayload (p : Json) : Option String :=
  match p with
  | .arr (first :: _) => orProbeId first
  | _ => none

/-- The claim's reading of `_extract_workflow_scheme_id`: the first
non-empty string found along the five probes, else not found. -/
def schemeIdFromSpec (p : Json) : Option String :=
  firstFound [probeDirect p, probeWorkflowScheme p, probeValues p,
              probeProjects p, probeListPayload p]

/-- Spec clause: a transition entry's required non-empty string name. -/
def specEntryName (tr : Json) : Option String :=
  asNonemptyStr (jget tr "name")

/-- Spec clause: `to_status` is taken from `to.name`, else from the
string field `end`. -/
def specToStatus (tr : Json) : Option String :=
  asNonemptyStr (jget ((jget tr "to").getD Json.null) "name") <|>
  asNonemptyStr (jget tr "end")

/-- Spec clause: what the `from` field yields — an object with a name
(single element), a list (all named entries collected), or a non-empty
string (single element). -/
def specFromDerived (tr : Json) : List String :=
  match jget tr "from" with
  | some (.obj fFields) =>
    (match asNonemptyStr (alookup fFields "name") with
     | some n => [n]
     | none => [])
  | some (.arr items) => items.filterMap (fun f => asNonemptyStr (jget f "name"))
  | some (.str s) => if s ≠ "" then [s] else []
  | _ => []

/-- Spec clause: `from_statuses` defaults to the wildcard when the
`from` field yields nothing. -/
def specFromStatuses (tr : Json) : List String :=
  if specFromDerived tr = [] then ["*"] else specFromDerived tr

/-- Spec clause: a non-empty string `id` is preserved. -/
def specEntryId (tr : Json) : Option String :=
  asNonemptyStr (jget tr "id")

/-- The claim's reading of the per-entry conversion performed by
`_extract_workflow_transitions`. -/
def convEntrySpec (tr : Json) : Option WorkflowTransition :=
  match specEntryName tr, specToStatus tr with
  | some name, some toSt =>
    some { id := specEntryId tr,
           name := some name,
           from_statuses := some (specFromStatuses tr),
           to_status := some toSt }
  | _, _ => none

/-- The first candidate response that succeeds and whose payload
extracts to a non-empty transition list ("the first candidate yielding
a non-empty extracted transition list"). -/
def firstUsable : List (Except FetchFailure Json) → Option (List WorkflowTransition)
  | [] => none
  | .error _ :: rest => firstUsable rest
  | .ok p :: rest =>
    let ts := extractWorkflowTransitions p
    if ts.isEmpty then firstUsable rest else some ts

/-- The last per-candidate error among the responses ("the last
underlying per-candidate error"). -/
def lastFetchError (responses : List (Except FetchFailure Json)) : Option FetchFailure :=
  (responses.filterMap (fun r =>
    match r with
    | .error e => some e
    | .ok _ => none)).getLast?

/-- The global side of the claimed partition: the summaries of the
wildcard-source transitions, in input order. -/
def globalSpec (ts : List WorkflowTransition) : List TransitionSummary :=
  (ts.filter (fun t => presentT t && isGlobalT t)).map mkSummary

/-- What one transition contributes to the bucket of status `s`: one
summary copy per listed occurrence of `s` (non-wildcard, non-empty
status names only). -/
def bucketContrib (s : String) (t : WorkflowTransition) : List TransitionSummary :=
  if presentT t && !isGlobalT t then
    ((t.from_statuses.getD []).filter (fun x => x == s && x != "")).map
      (fun _ => mkSummary t)
  else []

/-- The claimed content of the bucket of status `s`: contributions of
all transitions, in input order. -/
def bucketSpec (ts : List WorkflowTransition) (s : String) : List TransitionSummary :=
  ts.flatMap (bucketContrib s)

/-- The issues carried by one pagination round (empty for exceptions
and for absent or non-list `issues`). -/
def pageIssues : PageResult → List Json
  | .exn => []
  | .resp _ data =>
    match (jget data "issues").getD (Json.arr []) with
    | .arr l => l
    | _ => []

/-- A well-formed round that keeps the pagination going: HTTP 200, a
non-empty `issues` array, and a truthy `nextPageToken`. -/
def continuesRound : PageResult → Bool
  | .exn => false
  | .resp status data =>
    status == 200 &&
    (match (jget data "issues").getD (Json.arr []) with
     | .arr (_ :: _) => true
     | _ => false) &&
    (match jget data "nextPageToken" with
     | some tok => truthy tok
     | none => false)

/-- A well-formed terminal round: HTTP 200 and a non-empty `issues`
array, but no truthy `nextPageToken` (absent or falsy). -/
def finalRound : PageResult → Bool
  | .exn => false
  | .resp status data =>
    status == 200 &&
    (match (jget data "issues").getD (Json.arr []) with
     | .arr (_ :: _) => true
     | _ => false) &&
    (match jget data "nextPageToken" with
     | some tok => !truthy tok
     | none => true)

/-- The object form of `issueTypeMappings` built from key/value pairs. -/
def mappingsObjForm (pairs : List (String × String)) : Json :=
  Json.obj [("issueTypeMappings",
    Json.obj (pairs.map (fun kv => (kv.1, Json.str kv.2))))]

/-- The list form of `issueTypeMappings` built from the same pairs. -/
def mappingsListForm (pairs : List (String × String)) : Json :=
  Json.obj [("issueTypeMappings",
    Json.arr (pairs.map (fun kv =>
      Json.obj [("issueTypeId", Json.str kv.1), ("workflow", Json.str kv.2)])))]

/-! ### Helper lemmas -/

/-- The inner `for from_status in from_statuses` loop appends one
summary copy per non-empty occurrence of each status. -/
theorem bucketFold_spec (summary : TransitionSummary) (fs : List String) :
    ∀ bf : BucketMap,
      fs.foldl (fun m fromStatus =>
        if fromStatus ≠ "" then
          (fun s => if s = fromStatus then m s ++ [summary] else m s)
        else m) bf
      = fun s => bf s ++ (fs.filter (fun x => x == s && x != "")).map (fun _ => summary) := by
  induction fs with
  | nil => intro bf; funext s; simp
  | cons x rest ih =>
    intro bf
    rw [List.foldl_cons]
    by_cases hx : x = ""
    · subst hx
      rw [if_neg (by simp)]
      rw [ih bf]
      funext s
      simp [List.filter_cons]
    · rw [if_pos hx]
      rw [ih]
      funext s
      by_cases hs : s = x
      · subst hs
        simp [List.filter_cons, hx, List.append_assoc]
      · have hxs : (x == s && x != "") = false := by
          rw [beq_eq_false_iff_ne.mpr (fun h => hs h.symm)]
          rfl
        rw [List.filter_cons, hxs]
        simp [hs]

/-- One index-loop step, characterised: it appends the transition's
bucket contributions and (for wildcard transitions) its summary to the
global list. -/
theorem indexStep_spec (acc : BucketMap × List TransitionSummary)
    (t : WorkflowTransition) :
    indexStep acc t =
      (fun s => acc.1 s ++ bucketContrib s t,
       acc.2 ++ (if presentT t && isGlobalT t then [mkSummary t] else [])) := by
  by_cases hp : presentT t
  · by_cases hg : isGlobalT t
    · have hcontrib : ∀ s, bucketContrib s t = [] := by
        intro s; unfold bucketContrib; rw [if_neg]; simp [hg]
      unfold indexStep
      rw [if_pos hp, if_pos hg]
      refine Prod.ext ?_ ?_
      · funext s
        show acc.1 s = acc.1 s ++ bucketContrib s t
        rw [hcontrib]; simp
      · show acc.2 ++ [mkSummary t] = acc.2 ++ _
        rw [if_pos (by simp [hp, hg])]
    · have hcontrib : ∀ s, bucketContrib s t =
          ((t.from_statuses.getD []).filter (fun x => x == s && x != "")).map
            (fun _ => mkSummary t) := by
        intro s; unfold bucketContrib; rw [if_pos]; simp [hp, hg]
      have hfold := bucketFold_spec (mkSummary t) (t.from_statuses.getD []) acc.1
      unfold indexStep
      rw [if_pos hp, if_neg hg]
      show (List.foldl
        (fun m fromStatus =>
          if fromStatus ≠ "" then fun s => if s = fromStatus then m s ++ [mkSummary t] else m s
          else m) acc.1 (t.from_statuses.getD []), acc.2) = _
      rw [hfold]
      refine Prod.ext ?_ ?_
      · funext s
        show acc.1 s ++ _ = acc.1 s ++ bucketContrib s t
        rw [hcontrib]
      · show acc.2 = acc.2 ++ _
        rw [if_neg (by simp [hg])]
        simp
  · have hcontrib : ∀ s, bucketContrib s t = [] := by
      intro s; unfold bucketContrib; rw [if_neg]; simp [hp]
    unfold indexStep
    rw [if_neg hp]
    refine Prod.ext ?_ ?_
    · funext s
      show acc.1 s = acc.1 s ++ bucketContrib s t
      rw [hcontrib]; simp
    · show acc.2 = acc.2 ++ _
      rw [if_neg (by simp [hp])]
      simp

/-- Characterisation of the index fold from an arbitrary accumulator. -/
theorem foldl_indexStep_spec (ts : List WorkflowTransition) :
    ∀ (bf : BucketMap) (g : List TransitionSummary),
      ts.foldl indexStep (bf, g)
      = (fun s => bf s ++ bucketSpec ts s, g ++ globalSpec ts) := by
  induction ts with
  | nil =>
    intro bf g
    simp [bucketSpec, globalSpec]
  | cons t rest ih =>
    intro bf g
    rw [List.foldl_cons, indexStep_spec, ih]
    refine Prod.ext ?_ ?_
    · funext s
      show (bf s ++ bucketContrib s t) ++ bucketSpec rest s = bf s ++ bucketSpec (t :: rest) s
      unfold bucketSpec
      rw [List.flatMap_cons, List.append_assoc]
    · show (g ++ _) ++ globalSpec rest = g ++ globalSpec (t :: rest)
      unfold globalSpec
      rw [List.filter_cons, List.append_assoc]
      by_cases h : (presentT t && isGlobalT t) = true
      · rw [if_pos h, if_pos h]
        simp
      · rw [if_neg h, if_neg h]
        simp

/-- `_build_transition_index`, fully characterised: the global list is
the summaries of the wildcard transitions in input order, and each
bucket is the in-order concatenation of the per-transition
contributions. -/
theorem buildTransitionIndex_spec (ts : List WorkflowTransition) :
    buildTransitionIndex ts = (fun s => bucketSpec ts s, globalSpec ts) := by
  unfold buildTransitionIndex
  rw [foldl_indexStep_spec]
  simp

/-- Concatenating over a filtered list keeps only the kept elements'
blocks. -/
theorem flatMap_filter_eq {α β : Type} (p : α → Bool) (f : α → List β)
    (l : List α) :
    (l.filter p).flatMap f = l.flatMap (fun x => if p x then f x else []) := by
  induction l with
  | nil => rfl
  | cons x xs ih =>
    rw [List.filter_cons]
    by_cases h : p x
    · rw [if_pos h, List.flatMap_cons, List.flatMap_cons, if_pos h, ih]
    · rw [if_neg h, List.flatMap_cons, if_neg h, ih]
      rfl

/-- Pointwise-equal block functions give equal concatenations. -/
theorem flatMap_congr {α β : Type} {f g : α → List β} {l : List α}
    (h : ∀ x ∈ l, f x = g x) : l.flatMap f = l.flatMap g := by
  induction l with
  | nil => rfl
  | cons x xs ih =>
    rw [List.flatMap_cons, List.flatMap_cons, h x (List.mem_cons_self x xs),
      ih (fun y hy => h y (List.mem_cons_of_mem x hy))]

/-- When every transition has its fields present, the global side of the
index is exactly the summaries of the wildcard transitions, in order. -/
theorem index_global_of_present (ts : List WorkflowTransition)
    (hpres : ∀ t ∈ ts, presentT t = true) :
    (buildTransitionIndex ts).2 = (ts.filter (fun t => isGlobalT t)).map mkSummary := by
  rw [buildTransitionIndex_spec]
  show globalSpec ts = _
  unfold globalSpec
  rw [List.filter_congr (fun t ht => by rw [hpres t ht, Bool.true_and])]

/-- When fields are present and every non-wildcard transition lists only
non-empty statuses, each bucket is the in-order concatenation of one
summary copy per listed occurrence of the bucket's status. -/
theorem index_bucket_of_wellformed (ts : List WorkflowTransition)
    (hpres : ∀ t ∈ ts, presentT t = true)
    (hfs : ∀ t ∈ ts, isGlobalT t = false → ∀ s ∈ t.from_statuses.getD [], s ≠ "")
    (s : String) :
    (buildTransitionIndex ts).1 s =
      (ts.filter (fun t => !isGlobalT t)).flatMap
        (fun t => ((t.from_statuses.getD []).filter (fun x => x == s)).map
          (fun _ => mkSummary t)) := by
  rw [buildTransitionIndex_spec]
  show bucketSpec ts s = _
  unfold bucketSpec
  rw [flatMap_filter_eq]
  refine flatMap_congr ?_
  intro t ht
  unfold bucketContrib
  rw [hpres t ht, Bool.true_and]
  by_cases hg : isGlobalT t
  · rw [hg]
    simp
  · have hg' : isGlobalT t = false := by simp [hg]
    rw [hg']
    simp only [Bool.not_false, if_true]
    rw [List.filter_congr (fun x hx => by
      rw [bne_iff_ne.mpr (hfs t ht hg' x hx), Bool.and_true])]

/-- A value passing the `isinstance(x, str) and x` guard is non-empty. -/
theorem asNonemptyStr_ne_empty {o : Option Json} {s : String}
    (h : asNonemptyStr o = some s) : s ≠ "" := by
  cases o with
  | none => simp [asNonemptyStr] at h
  | some v =>
    cases v with
    | str s' =>
      by_cases hs : s' = ""
      · simp [asNonemptyStr, hs] at h
      · simp only [asNonemptyStr, if_neg hs, Option.some.injEq] at h
        subst h
        exact hs
    | null => simp [asNonemptyStr] at h
    | bool b => simp [asNonemptyStr] at h
    | num n => simp [asNonemptyStr] at h
    | arr l => simp [asNonemptyStr] at h
    | obj l => simp [asNonemptyStr] at h

/-- The spec-side `from_statuses` is never empty and lists only
non-empty status names. -/
theorem specFromStatuses_wellformed (e : Json) :
    specFromStatuses e ≠ [] ∧ ∀ s ∈ specFromStatuses e, s ≠ "" := by
  unfold specFromStatuses
  by_cases h0 : specFromDerived e = []
  · rw [if_pos h0]
    refine ⟨by simp, ?_⟩
    intro s hs
    rw [List.mem_singleton] at hs
    subst hs
    decide
  · rw [if_neg h0]
    refine ⟨h0, ?_⟩
    intro s hs
    unfold specFromDerived at hs
    split at hs
    · split at hs
      next n hn =>
        rw [List.mem_singleton] at hs
        subst hs
        exact asNonemptyStr_ne_empty hn
      next => simp at hs
    · rw [List.mem_filterMap] at hs
      obtain ⟨f, _, hfs⟩ := hs
      exact asNonemptyStr_ne_empty hfs
    · split at hs
      next hne =>
        rw [List.mem_singleton] at hs
        subst hs
        exact hne
      next => simp at hs
    · simp at hs

/-- Probing `o.name` after a `getD Json.null` default agrees with the
explicit object-shape match. -/
theorem asNonemptyStr_jget_getD (o : Option Json) (k : String) :
    asNonemptyStr (jget (o.getD Json.null) k) =
      (match o with
       | some (.obj l) => asNonemptyStr (alookup l k)
       | _ => none) := by
  rcases o with _ | v
  · rfl
  · cases v <;> rfl

/-- The source's `from`-field derivation coincides with the spec-side
`specFromDerived`. -/
theorem fromDerived_code_eq (trFields : List (String × Json)) :
    (match alookup trFields "from" with
     | some (.obj fromFields) =>
       (match asNonemptyStr (alookup fromFields "name") with
        | some n => [n]
        | none => [])
     | some (.arr items) =>
       items.filterMap (fun f =>
         match f with
         | .obj fFields => asNonemptyStr (alookup fFields "name")
         | _ => none)
     | some (.str s) => if s = "" then [] else [s]
     | _ => []) = specFromDerived (Json.obj trFields) := by
  unfold specFromDerived
  show _ = (match alookup trFields "from" with
    | some (.obj fFields) =>
      (match asNonemptyStr (alookup fFields "name") with
       | some n => [n]
       | none => [])
    | some (.arr items) => items.filterMap (fun f => asNonemptyStr (jget f "name"))
    | some (.str s) => if s ≠ "" then [s] else []
    | _ => [])
  cases hf : alookup trFields "from" with
  | none => rfl
  | some v =>
    cases v with
    | null => rfl
    | bool b => rfl
    | num n => rfl
    | obj fromFields => rfl
    | arr items =>
      exact List.filterMap_congr (fun f _ => by cases f <;> rfl)
    | str s =>
      by_cases h : s = "" <;> simp [h]

/-- The per-entry conversion of `_extract_workflow_transitions` agrees
with the claim's clause-by-clause description. -/
theorem convEntry_eq_spec (e : Json) : convEntry e = convEntrySpec e := by
  cases e with
  | null => rfl
  | bool b => rfl
  | num n => rfl
  | str s => rfl
  | arr l => rfl
  | obj trFields =>
    simp only [convEntry, convEntrySpec]
    cases hn : asNonemptyStr (alookup trFields "name") with
    | none =>
      have hsn : specEntryName (Json.obj trFields) = none := hn
      rw [hsn]
    | some name =>
      have hsn : specEntryName (Json.obj trFields) = some name := hn
      rw [hsn]
      have hto : specToStatus (Json.obj trFields) =
          ((match alookup trFields "to" with
            | some (.obj toFields) => asNonemptyStr (alookup toFields "name")
            | _ => none) <|>
           asNonemptyStr (alookup trFields "end")) := by
        unfold specToStatus
        rw [asNonemptyStr_jget_getD]
        rfl
      cases hts : ((match alookup trFields "to" with
          | some (.obj toFields) => asNonemptyStr (alookup toFields "name")
          | _ => none) <|>
         asNonemptyStr (alookup trFields "end")) with
      | none =>
        rw [hts] at hto
        rw [hto]
      | some toSt =>
        rw [hts] at hto
        rw [hto]
        show some _ = some _
        have hfs : specFromStatuses (Json.obj trFields) =
            (if specFromDerived (Json.obj trFields) = []
             then ["*"] else specFromDerived (Json.obj trFields)) := rfl
        rw [hfs, ← fromDerived_code_eq]
        rfl

/-- A derived `to_status` is a non-empty string. -/
theorem specToStatus_ne_empty {e : Json} {d : String}
    (h : specToStatus e = some d) : d ≠ "" := by
  unfold specToStatus at h
  cases hA : asNonemptyStr (jget ((jget e "to").getD Json.null) "name") with
  | some x =>
    rw [hA] at h
    have hx : (some x <|> asNonemptyStr (jget e "end")) = some x := rfl
    rw [hx, Option.some.injEq] at h
    subst h
    exact asNonemptyStr_ne_empty hA
  | none =>
    rw [hA] at h
    have hx : ((none : Option String) <|> asNonemptyStr (jget e "end")) =
        asNonemptyStr (jget e "end") := rfl
    rw [hx] at h
    exact asNonemptyStr_ne_empty h

/-- Every transition produced by `_extract_workflow_transitions` has a
non-empty name, a non-empty destination, and a non-empty list of
non-empty source statuses. -/
theorem extract_wellformed (payload : Json) (t : WorkflowTransition)
    (ht : t ∈ extractWorkflowTransitions payload) :
    (∃ n, t.name = some n ∧ n ≠ "") ∧
    (∃ d, t.to_status = some d ∧ d ≠ "") ∧
    (∃ fs, t.from_statuses = some fs ∧ fs ≠ [] ∧ ∀ s ∈ fs, s ≠ "") := by
  dsimp only [extractWorkflowTransitions] at ht
  split at ht
  · split at ht
    · rw [List.mem_filterMap] at ht
      obtain ⟨e, _, he⟩ := ht
      rw [convEntry_eq_spec] at he
      unfold convEntrySpec at he
      split at he
      next name toSt hn hts =>
        rw [Option.some.injEq] at he
        subst he
        refine ⟨⟨name, rfl, asNonemptyStr_ne_empty hn⟩,
                ⟨toSt, rfl, specToStatus_ne_empty hts⟩,
                ⟨specFromStatuses e, rfl, (specFromStatuses_wellformed e).1,
                 (specFromStatuses_wellformed e).2⟩⟩
      next => exact absurd he (by simp)
    · simp at ht
  · simp at ht

/-- Appending one binding at the end only affects lookups of its key,
and only when that key was absent. -/
theorem alookup_append_single {α : Type} (l : List (String × α)) (k k' : String)
    (v : α) :
    alookup (l ++ [(k, v)]) k' =
      (match alookup l k' with
       | some x => some x
       | none => if k = k' then some v else none) := by
  induction l with
  | nil => rfl
  | cons kv rest ih =>
    obtain ⟨a, b⟩ := kv
    show (if a = k' then some b else alookup (rest ++ [(k, v)]) k') = _
    by_cases h : a = k'
    · rw [if_pos h]
      show some b = (match (if a = k' then some b else alookup rest k') with
        | some x => some x
        | none => if k = k' then some v else none)
      rw [if_pos h]
    · rw [if_neg h, ih]
      show _ = (match (if a = k' then some b else alookup rest k') with
        | some x => some x
        | none => if k = k' then some v else none)
      rw [if_neg h]

/-- Appending a binding for a different key leaves a lookup unchanged. -/
theorem alookup_append_other {α : Type} (l : List (String × α)) (k k' : String)
    (v : α) (hne : k ≠ k') :
    alookup (l ++ [(k, v)]) k' = alookup l k' := by
  rw [alookup_append_single]
  cases alookup l k' with
  | some x => rfl
  | none =>
    show (if k = k' then some v else none) = none
    rw [if_neg hne]

/-- Appending a binding for an absent key makes its lookup succeed. -/
theorem alookup_append_self {α : Type} (l : List (String × α)) (k : String)
    (v : α) (h : alookup l k = none) :
    alookup (l ++ [(k, v)]) k = some v := by
  rw [alookup_append_single, h]
  show (if k = k then some v else none) = some v
  rw [if_pos rfl]

/-! ### Claim theorems -/

/-- A fully-populated transition record whose `from_statuses` is the
empty list: allowed by the data model (`from_statuses` is a sequence of
strings) and not a wildcard. -/
def emptySourcesTransition : WorkflowTransition :=
  { id := none, name := some "Start Progress",
    from_statuses := some [], to_status := some "In Progress" }

/-- C1 counterexample: for the input list `[emptySourcesTransition]`,
`_build_transition_index` returns an empty global list and empty
buckets for every status — the input transition appears nowhere, so the
claim's "no input transition dropped" fails on this well-formed record
(its fields are present and it is not a wildcard). -/
theorem claim_C1_counterexample :
    presentT emptySourcesTransition = true ∧
    isGlobalT emptySourcesTransition = false ∧
    buildTransitionIndex [emptySourcesTransition] = ((fun _ => []), []) := by
  refine ⟨rfl, rfl, ?_⟩
  rw [buildTransitionIndex_spec]
  refine Prod.ext ?_ ?_
  · funext s
    rfl
  · rfl

/-- C1 (amended): for every list of WorkflowTransition records whose
fields are present and whose non-wildcard records list at least one
source status, all of them non-empty, `_build_transition_index`
partitions the records: the global side is exactly the summaries of the
wildcard records in input order; the bucket of each status `s` is the
in-order concatenation, over the non-wildcard records, of one summary
copy per listed occurrence of `s`; every wildcard record's summary is
in the global list and every non-wildcard record's summary is in the
bucket of each of its listed statuses — so no record is dropped and
each record feeds exactly one side of the partition. -/
theorem claim_C1_partition (ts : List WorkflowTransition)
    (hpres : ∀ t ∈ ts, presentT t = true)
    (hfs : ∀ t ∈ ts, isGlobalT t = false →
      t.from_statuses.getD [] ≠ [] ∧ ∀ s ∈ t.from_statuses.getD [], s ≠ "") :
    ((buildTransitionIndex ts).2 =
      (ts.filter (fun t => isGlobalT t)).map mkSummary) ∧
    (∀ s, (buildTransitionIndex ts).1 s =
      (ts.filter (fun t => !isGlobalT t)).flatMap
        (fun t => ((t.from_statuses.getD []).filter (fun x => x == s)).map
          (fun _ => mkSummary t))) ∧
    (∀ t ∈ ts, isGlobalT t = true → mkSummary t ∈ (buildTransitionIndex ts).2) ∧
    (∀ t ∈ ts, isGlobalT t = false → ∀ s ∈ t.from_statuses.getD [],
      mkSummary t ∈ (buildTransitionIndex ts).1 s) := by
  have h1 := index_global_of_present ts hpres
  have h2 := fun s =>
    index_bucket_of_wellformed ts hpres (fun t ht hg => (hfs t ht hg).2) s
  refine ⟨h1, h2, ?_, ?_⟩
  · intro t ht hg
    rw [h1]
    exact List.mem_map_of_mem mkSummary (List.mem_filter.mpr ⟨ht, hg⟩)
  · intro t ht hg s hs
    rw [h2 s, List.mem_flatMap]
    refine ⟨t, List.mem_filter.mpr ⟨ht, by rw [hg]; rfl⟩, ?_⟩
    have hmem : s ∈ (t.from_statuses.getD []).filter (fun x => x == s) :=
      List.mem_filter.mpr ⟨hs, by simp⟩
    exact List.mem_map.mpr ⟨s, hmem, rfl⟩

/-- A wildcard transition used in concrete instances. -/
def wildcardSample : WorkflowTransition :=
  { id := some "11", name := some "Close", from_statuses := some ["*"],
    to_status := some "Done" }

/-- A two-source transition used in concrete instances. -/
def twoSourceSample : WorkflowTransition :=
  { id := none, name := some "Review", from_statuses := some ["To Do", "In Progress"],
    to_status := some "In Review" }

/-- C1 witness: the amended partition theorem applied to a concrete
two-transition list. -/
theorem claim_C1_witness :
    (buildTransitionIndex [wildcardSample, twoSourceSample]).2
      = [mkSummary wildcardSample] ∧
    (buildTransitionIndex [wildcardSample, twoSourceSample]).1 "To Do"
      = [mkSummary twoSourceSample] := by
  have h := claim_C1_partition [wildcardSample, twoSourceSample]
    (by decide) (by decide)
  refine ⟨?_, ?_⟩
  · rw [h.1]
    rfl
  · rw [h.2.1 "To Do"]
    rfl

/-- C4: the per-entry conversion of `_extract_workflow_transitions`
matches the claim clause by clause — name required (skip otherwise),
`to_status` from `to.name` else the string field `end` (skip if
neither), `from_statuses` from the object/list/non-empty-string shapes
of `from` with wildcard default, and a non-empty string `id` preserved;
and the extraction of a workflow payload converts exactly the entries
of its `transitions` list this way. -/
theorem claim_C4_entry_conversion :
    (∀ e : Json, convEntry e = convEntrySpec e) ∧
    (∀ trs : List Json,
      extractWorkflowTransitions (Json.obj [("transitions", Json.arr trs)])
        = trs.filterMap convEntrySpec) := by
  refine ⟨convEntry_eq_spec, ?_⟩
  intro trs
  show trs.filterMap convEntry = trs.filterMap convEntrySpec
  exact List.filterMap_congr (fun e _ => convEntry_eq_spec e)

/-- C10: every transition returned by `_extract_workflow_transitions`
has its three fields present, a non-empty name, a non-empty
destination, and a non-empty `from_statuses` list; consequently the
index never skips or drops extractor output, and the partition
characterisation holds for it without further hypotheses. -/
theorem claim_C10_extractor_invariant (payload : Json) :
    (∀ t ∈ extractWorkflowTransitions payload,
       presentT t = true ∧
       t.name ≠ some "" ∧ t.to_status ≠ some "" ∧
       t.from_statuses.getD [] ≠ []) ∧
    ((buildTransitionIndex (extractWorkflowTransitions payload)).2
       = ((extractWorkflowTransitions payload).filter
           (fun t => isGlobalT t)).map mkSummary) ∧
    (∀ s, (buildTransitionIndex (extractWorkflowTransitions payload)).1 s
       = ((extractWorkflowTransitions payload).filter
           (fun t => !isGlobalT t)).flatMap
           (fun t => ((t.from_statuses.getD []).filter (fun x => x == s)).map
             (fun _ => mkSummary t))) := by
  have hpres : ∀ t ∈ extractWorkflowTransitions payload, presentT t = true := by
    intro t ht
    obtain ⟨⟨n, hn, _⟩, ⟨d, hd, _⟩, ⟨fs, hfsq, _, _⟩⟩ := extract_wellformed payload t ht
    unfold presentT
    rw [hn, hd, hfsq]
    rfl
  have hok : ∀ t ∈ extractWorkflowTransitions payload, isGlobalT t = false →
      ∀ s ∈ t.from_statuses.getD [], s ≠ "" := by
    intro t ht _ s hs
    obtain ⟨_, _, ⟨fs, hfsq, _, hall⟩⟩ := extract_wellformed payload t ht
    rw [hfsq] at hs
    exact hall s hs
  refine ⟨?_, index_global_of_present _ hpres,
    fun s => index_bucket_of_wellformed _ hpres hok s⟩
  intro t ht
  obtain ⟨⟨n, hn, hne⟩, ⟨d, hd, hde⟩, ⟨fs, hfsq, hfne, _⟩⟩ :=
    extract_wellformed payload t ht
  refine ⟨hpres t ht, ?_, ?_, ?_⟩
  · rw [hn]
    exact fun hcon => hne (Option.some.inj hcon)
  · rw [hd]
    exact fun hcon => hde (Option.some.inj hcon)
  · rw [hfsq]
    exact hfne

/-- A concrete workflow-search payload with one wildcard transition and
one explicitly-sourced transition. -/
def workflowPayloadSample : Json :=
  Json.obj [("values", Json.arr [Json.obj [("transitions", Json.arr [
    Json.obj [("name", Json.str "Begin"),
              ("to", Json.obj [("name", Json.str "In Progress")])],
    Json.obj [("name", Json.str "Finish"), ("end", Json.str "Done"),
              ("from", Json.arr [Json.obj [("name", Json.str "In Progress")]]),
              ("id", Json.str "21")]])]])]

/-- C10 witness: the invariant applied to a concrete extracted
transition of `workflowPayloadSample`. -/
theorem claim_C10_witness :
    presentT ⟨none, some "Begin", some ["*"], some "In Progress"⟩ = true ∧
    (⟨none, some "Begin", some ["*"], some "In Progress"⟩ :
        WorkflowTransition).from_statuses.getD [] ≠ [] := by
  have h := (claim_C10_extractor_invariant workflowPayloadSample).1
    ⟨none, some "Begin", some ["*"], some "In Progress"⟩ (by decide)
  exact ⟨h.1, h.2.2.2⟩

/-- C6: a transition entry with no `from` field converts identically to
the same entry with `from` set to the string `"*"` — both yield
`from_statuses = ["*"]` — and the indexer sends any such transition to
`global_transitions`, leaving every bucket untouched. -/
theorem claim_C6_wildcard_equivalence :
    (∀ fields : List (String × Json), alookup fields "from" = none →
      (convEntry (Json.obj fields)
         = convEntry (Json.obj (fields ++ [("from", Json.str "*")]))) ∧
      (∀ w, convEntry (Json.obj fields) = some w →
        w.from_statuses = some ["*"])) ∧
    (∀ (acc : BucketMap × List TransitionSummary) (t : WorkflowTransition),
      t.from_statuses = some ["*"] → presentT t = true →
      indexStep acc t = (acc.1, acc.2 ++ [mkSummary t])) := by
  constructor
  · intro fields h
    have hfs0 : specFromStatuses (Json.obj fields) = ["*"] := by
      unfold specFromStatuses specFromDerived
      rw [show jget (Json.obj fields) "from" = alookup fields "from" from rfl, h]
      rfl
    have hfs1 : specFromStatuses (Json.obj (fields ++ [("from", Json.str "*")]))
        = ["*"] := by
      unfold specFromStatuses specFromDerived
      rw [show jget (Json.obj (fields ++ [("from", Json.str "*")])) "from"
            = alookup (fields ++ [("from", Json.str "*")]) "from" from rfl,
          alookup_append_self fields "from" (Json.str "*") h]
      rfl
    constructor
    · rw [convEntry_eq_spec, convEntry_eq_spec]
      unfold convEntrySpec
      have hname : specEntryName (Json.obj (fields ++ [("from", Json.str "*")]))
          = specEntryName (Json.obj fields) := by
        unfold specEntryName
        show asNonemptyStr (alookup (fields ++ [("from", Json.str "*")]) "name") = _
        rw [alookup_append_other fields "from" "name" (Json.str "*") (by decide)]
        rfl
      have hto : specToStatus (Json.obj (fields ++ [("from", Json.str "*")]))
          = specToStatus (Json.obj fields) := by
        unfold specToStatus
        show (asNonemptyStr (jget ((alookup (fields ++ [("from", Json.str "*")]) "to").getD
            Json.null) "name") <|>
          asNonemptyStr (alookup (fields ++ [("from", Json.str "*")]) "end")) = _
        rw [alookup_append_other fields "from" "to" (Json.str "*") (by decide),
            alookup_append_other fields "from" "end" (Json.str "*") (by decide)]
        rfl
      have hid : specEntryId (Json.obj (fields ++ [("from", Json.str "*")]))
          = specEntryId (Json.obj fields) := by
        unfold specEntryId
        show asNonemptyStr (alookup (fields ++ [("from", Json.str "*")]) "id") = _
        rw [alookup_append_other fields "from" "id" (Json.str "*") (by decide)]
        rfl
      rw [hname, hto, hid, hfs0, hfs1]
    · intro w hw
      rw [convEntry_eq_spec] at hw
      unfold convEntrySpec at hw
      split at hw
      next name toSt hn hts =>
        rw [Option.some.injEq] at hw
        subst hw
        rw [hfs0]
      next => exact absurd hw (by simp)
  · intro acc t hfs hp
    have hg : isGlobalT t = true := by
      unfold isGlobalT
      rw [hfs]
      rfl
    unfold indexStep
    rw [if_pos hp, if_pos hg]

/-- C6 witness: the equivalence applied to a concrete entry lacking a
`from` field. -/
theorem claim_C6_witness :
    convEntry (Json.obj [("name", Json.str "Reopen"), ("end", Json.str "To Do")])
      = convEntry (Json.obj ([("name", Json.str "Reopen"), ("end", Json.str "To Do")]
          ++ [("from", Json.str "*")])) ∧
    indexStep ((fun _ => []), []) ⟨none, some "Reopen", some ["*"], some "To Do"⟩
      = ((fun _ => []), [mkSummary ⟨none, some "Reopen", some ["*"], some "To Do"⟩]) := by
  refine ⟨(claim_C6_wildcard_equivalence.1
    [("name", Json.str "Reopen"), ("end", Json.str "To Do")] rfl).1, ?_⟩
  have h := claim_C6_wildcard_equivalence.2 ((fun _ => []), [])
    ⟨none, some "Reopen", some ["*"], some "To Do"⟩ rfl (by decide)
  rw [h]
  rfl

/-- `firstFound` over five probes is the left-biased choice chain. -/
theorem firstFound_five (a b c d e : Option String) :
    firstFound [a, b, c, d, e] = ((a <|> b <|> c <|> d) <|> e) := by
  cases a <;> cases b <;> cases c <;> cases d <;> cases e <;> rfl

/-- The spec-side `or` probe agrees with the source's guarded probe on
every JSON value. -/
theorem orProbeId_eq_innerSchemeId (v : Json) :
    orProbeId v = innerSchemeId v := by
  cases v <;> rfl

/-- Rewriting the `values[0]`-style match from the spec probe to the
source probe. -/
theorem match_orProbe_inner (o : Option Json) :
    (match o with
     | some (.arr (first :: _)) => orProbeId first
     | _ => none)
    = (match o with
       | some (.arr (first :: _)) => innerSchemeId first
       | _ => none) := by
  rcases o with _ | v
  · rfl
  · cases v with
    | arr items =>
      cases items with
      | nil => rfl
      | cons first rest => exact orProbeId_eq_innerSchemeId first
    | null => rfl
    | bool b => rfl
    | num n => rfl
    | str s => rfl
    | obj l => rfl

/-- C2: `_extract_workflow_scheme_id` returns exactly the first
non-empty string produced by the five claimed probes, in their claimed
precedence order, and the not-found result when all probes fail. -/
theorem claim_C2_scheme_id (p : Json) :
    extractWorkflowSchemeId p = schemeIdFromSpec p := by
  unfold schemeIdFromSpec
  rw [firstFound_five]
  cases p with
  | null => rfl
  | bool b => rfl
  | num n => rfl
  | str s => rfl
  | arr items =>
    cases items with
    | nil => rfl
    | cons first rest =>
      show innerSchemeId first = orProbeId first
      exact (orProbeId_eq_innerSchemeId first).symm
  | obj fields =>
    have h2 : probeWorkflowScheme (Json.obj fields) =
        (match jget (Json.obj fields) "workflowScheme" with
         | some (.obj wsFields) => asNonemptyStr (alookup wsFields "id")
         | _ => none) := by
      unfold probeWorkflowScheme
      rw [asNonemptyStr_jget_getD]
    have h3 : probeValues (Json.obj fields) =
        (match jget (Json.obj fields) "values" with
         | some (.arr (first :: _)) => innerSchemeId first
         | _ => none) := by
      unfold probeValues
      exact match_orProbe_inner _
    have h4 : probeProjects (Json.obj fields) =
        (match jget (Json.obj fields) "projects" with
         | some (.obj prFields) =>
           (match alookup prFields "values" with
            | some (.arr (first2 :: _)) => innerSchemeId first2
            | _ => none)
         | _ => none) := by
      unfold probeProjects
      cases hp : jget (Json.obj fields) "projects" with
      | none => rfl
      | some v =>
        cases v with
        | obj prFields => exact match_orProbe_inner (alookup prFields "values")
        | null => rfl
        | bool b => rfl
        | num n => rfl
        | str s => rfl
        | arr l => rfl
    rw [h2, h3, h4]
    rfl

/-- The normalized fold the two `issueTypeMappings` forms both reduce
to: keep pairs of non-empty strings, Python-dict insertion. -/
def mappingFold (pairs : List (String × String)) : List (String × String) :=
  pairs.foldl (fun m kv => if kv.1 ≠ "" ∧ kv.2 ≠ "" then upsert m kv.1 kv.2 else m) []

/-- The object form of `issueTypeMappings` normalizes to `mappingFold`. -/
theorem schemeMapping_objForm (pairs : List (String × String)) :
    extractSchemeWorkflowMapping (mappingsObjForm pairs)
      = (none, mappingFold pairs) := by
  show (none, (pairs.map (fun kv => (kv.1, Json.str kv.2))).foldl
    (fun m kv =>
      match kv.2 with
      | .str v => if kv.1 ≠ "" ∧ v ≠ "" then upsert m kv.1 v else m
      | _ => m) []) = (none, mappingFold pairs)
  rw [List.foldl_map]
  rfl

/-- The list form of `issueTypeMappings` normalizes to `mappingFold`
too. -/
theorem schemeMapping_listForm (pairs : List (String × String)) :
    extractSchemeWorkflowMapping (mappingsListForm pairs)
      = (none, mappingFold pairs) := by
  show (none, (pairs.map (fun kv =>
      Json.obj [("issueTypeId", Json.str kv.1), ("workflow", Json.str kv.2)])).foldl
    (fun m item =>
      match item with
      | .obj _ =>
        (match asNonemptyStr (pyOr (jget item "issueTypeId") (jget item "issueType")),
               asNonemptyStr (pyOr (jget item "workflow") (jget item "workflowName")) with
         | some k, some v => upsert m k v
         | _, _ => m)
      | _ => m) []) = (none, mappingFold pairs)
  rw [List.foldl_map]
  refine congrArg (Prod.mk none) (List.foldl_ext _ _ [] (fun m kv _ => ?_))
  show (match asNonemptyStr (pyOr (some (Json.str kv.1)) none),
              asNonemptyStr (pyOr (some (Json.str kv.2)) none) with
        | some k, some v => upsert m k v
        | _, _ => m)
      = if kv.1 ≠ "" ∧ kv.2 ≠ "" then upsert m kv.1 kv.2 else m
  by_cases hk : kv.1 = ""
  · have h1 : asNonemptyStr (pyOr (some (Json.str kv.1)) none) = none := by
      rw [hk]
      rfl
    rw [h1, if_neg (fun hcon => hcon.1 hk)]
  · have h1 : asNonemptyStr (pyOr (some (Json.str kv.1)) none) = some kv.1 := by
      show asNonemptyStr
        (if truthy (Json.str kv.1) = true then some (Json.str kv.1) else none) = some kv.1
      rw [if_pos (show truthy (Json.str kv.1) = true by simp [truthy, hk])]
      show (if kv.1 = "" then none else some kv.1) = some kv.1
      rw [if_neg hk]
    by_cases hv : kv.2 = ""
    · have h2 : asNonemptyStr (pyOr (some (Json.str kv.2)) none) = none := by
        rw [hv]
        rfl
      rw [h1, h2, if_neg (fun hcon => hcon.2 hv)]
    · have h2 : asNonemptyStr (pyOr (some (Json.str kv.2)) none) = some kv.2 := by
        show asNonemptyStr
          (if truthy (Json.str kv.2) = true then some (Json.str kv.2) else none) = some kv.2
        rw [if_pos (show truthy (Json.str kv.2) = true by simp [truthy, hv])]
        show (if kv.2 = "" then none else some kv.2) = some kv.2
        rw [if_neg hv]
      rw [h1, h2, if_pos ⟨hk, hv⟩]

/-- C5: `_extract_scheme_workflow_mapping` returns the default workflow
and the issue-type mapping for both recognized shapes (the two concrete
examples of the claim), normalizes the object form and the list form of
`issueTypeMappings` to the same mapping for all key/value pairs, and
returns `(none, empty)` on every non-object payload instead of
failing. -/
theorem claim_C5_scheme_mapping :
    (extractSchemeWorkflowMapping (Json.obj [("defaultWorkflow", Json.str "W"),
       ("issueTypeMappings", Json.obj [("10001", Json.str "Bug Workflow")])])
      = (some "W", [("10001", "Bug Workflow")])) ∧
    (extractSchemeWorkflowMapping (Json.obj [("issueTypeMappings",
       Json.arr [Json.obj [("issueTypeId", Json.str "10002"),
                           ("workflow", Json.str "Task Workflow")]])])
      = (none, [("10002", "Task Workflow")])) ∧
    (∀ pairs : List (String × String),
      extractSchemeWorkflowMapping (mappingsObjForm pairs)
        = extractSchemeWorkflowMapping (mappingsListForm pairs)) ∧
    (∀ p : Json, (∀ fields, p ≠ Json.obj fields) →
      extractSchemeWorkflowMapping p = (none, [])) := by
  refine ⟨rfl, rfl, ?_, ?_⟩
  · intro pairs
    rw [schemeMapping_objForm, schemeMapping_listForm]
  · intro p h
    cases p with
    | obj fields => exact absurd rfl (h fields)
    | null => rfl
    | bool b => rfl
    | num n => rfl
    | str s => rfl
    | arr l => rfl

/-- C5 witness: the non-object fallback applied to a string payload and
the normalization applied to a concrete pair list. -/
theorem claim_C5_witness :
    extractSchemeWorkflowMapping (Json.str "oops") = (none, []) ∧
    extractSchemeWorkflowMapping (mappingsObjForm [("7", "Flow"), ("", "X")])
      = extractSchemeWorkflowMapping (mappingsListForm [("7", "Flow"), ("", "X")]) := by
  refine ⟨claim_C5_scheme_mapping.2.2.2 (Json.str "oops") (fun fields h => ?_),
    claim_C5_scheme_mapping.2.2.1 [("7", "Flow"), ("", "X")]⟩
  exact Json.noConfusion h

/-- An error at the head of the response list becomes the new fallback
cause exactly when no later error overrides it. -/
theorem lastFetchError_cons_error (e : FetchFailure)
    (rest : List (Except FetchFailure Json)) (le : Option FetchFailure) :
    ((lastFetchError (.error e :: rest)).orElse (fun _ => le))
      = ((lastFetchError rest).orElse (fun _ => some e)) := by
  have hcons : lastFetchError (.error e :: rest)
      = (e :: rest.filterMap (fun r =>
          match r with
          | .error e => some e
          | .ok _ => none)).getLast? := rfl
  have hrest : lastFetchError rest
      = (rest.filterMap (fun r =>
          match r with
          | .error e => some e
          | .ok _ => none)).getLast? := rfl
  rw [hcons, List.getLast?_cons, hrest]
  cases (rest.filterMap (fun r =>
      match r with
      | .error e => some e
      | .ok _ => none)).getLast? with
  | none => rfl
  | some y => rfl

/-- The candidate loop, characterised: it returns the first usable
(non-empty) extraction, else the aggregated error caused by the last
per-candidate error (falling back to the inherited `lastError`). -/
theorem transitionsFetchLoop_spec (rs : List (Except FetchFailure Json)) :
    ∀ le : Option FetchFailure,
      transitionsFetchLoop le rs =
        (match firstUsable rs with
         | some ts => .ok ts
         | none => .error ⟨(lastFetchError rs).orElse (fun _ => le)⟩) := by
  induction rs with
  | nil => intro le; rfl
  | cons r rest ih =>
    intro le
    cases r with
    | error e =>
      show transitionsFetchLoop (some e) rest = _
      rw [ih (some e)]
      have hfu : firstUsable (.error e :: rest) = firstUsable rest := rfl
      rw [hfu]
      cases firstUsable rest with
      | some ts => rfl
      | none =>
        show Except.error _ = Except.error _
        rw [lastFetchError_cons_error e rest le]
    | ok p =>
      show (if (extractWorkflowTransitions p).isEmpty
            then transitionsFetchLoop le rest
            else .ok (extractWorkflowTransitions p)) = _
      have hfu : firstUsable (.ok p :: rest)
          = (if (extractWorkflowTransitions p).isEmpty
             then firstUsable rest
             else some (extractWorkflowTransitions p)) := rfl
      have hle : lastFetchError (.ok p :: rest) = lastFetchError rest := rfl
      rw [hfu, hle]
      by_cases hemp : (extractWorkflowTransitions p).isEmpty
      · rw [if_pos hemp, if_pos hemp, ih le]
      · rw [if_neg hemp, if_neg hemp]

/-- A successful 200 response whose payload carries an empty
`transitions` array. -/
def emptyTransitionsPayload : Json :=
  Json.obj [("values", Json.arr [Json.obj [("transitions", Json.arr [])]])]

/-- C3: the by-name transition fetch returns the first candidate whose
call succeeds and extracts a non-empty transition list — an empty
success is a soft failure and the next candidate is tried — and when no
candidate is usable it raises one aggregated error whose cause is the
last per-candidate error; concretely, with candidates answering
HTTP 404, then 200 with zero transitions, then 200 with two
transitions, the third candidate's two transitions are returned. -/
theorem claim_C3_fallback_fetch :
    (∀ rs : List (Except FetchFailure Json),
      fetchWorkflowTransitionsByName rs =
        (match firstUsable rs with
         | some ts => .ok ts
         | none => .error ⟨lastFetchError rs⟩)) ∧
    fetchWorkflowTransitionsByName
        [.error (.http 404), .ok emptyTransitionsPayload, .ok workflowPayloadSample]
      = .ok [⟨none, some "Begin", some ["*"], some "In Progress"⟩,
             ⟨some "21", some "Finish", some ["In Progress"], some "Done"⟩] ∧
    fetchWorkflowTransitionsByName [.error (.http 404), .ok emptyTransitionsPayload]
      = .error ⟨some (.http 404)⟩ := by
  refine ⟨?_, rfl, rfl⟩
  intro rs
  rw [fetchWorkflowTransitionsByName, transitionsFetchLoop_spec]
  cases firstUsable rs with
  | some ts => rfl
  | none =>
    show Except.error _ = Except.error _
    cases lastFetchError rs with
    | none => rfl
    | some e => rfl

/-- C8: `_fetch_project_id` uses exactly one request outcome (no
candidate list): a transport or decode failure propagates as such; a
decoded object with a string `id` yields that id; every other decoded
payload raises the configuration-shaped `ValueError`, which is distinct
from every transport error. -/
theorem claim_C8_project_id :
    (∀ e : FetchFailure, fetchProjectId (.error e) = .error (.transport e)) ∧
    (∀ (fields : List (String × Json)) (s : String),
      alookup fields "id" = some (Json.str s) →
      fetchProjectId (.ok (Json.obj fields)) = .ok s) ∧
    (∀ p : Json,
      ((∃ fields, p = Json.obj fields ∧ ∀ s, alookup fields "id" ≠ some (Json.str s)) ∨
       (∀ fields, p ≠ Json.obj fields)) →
      fetchProjectId (.ok p) = .error .valueError) ∧
    (∀ e : FetchFailure, (ProjectIdError.valueError : ProjectIdError) ≠ .transport e) := by
  refine ⟨fun e => rfl, ?_, ?_, fun e hcon => ProjectIdError.noConfusion hcon⟩
  · intro fields s h
    show (match alookup fields "id" with
          | some (.str s) => Except.ok s
          | _ => Except.error ProjectIdError.valueError) = Except.ok s
    rw [h]
  · intro p h
    rcases h with ⟨fields, rfl, hno⟩ | hnobj
    · show (match alookup fields "id" with
            | some (.str s) => Except.ok s
            | _ => Except.error ProjectIdError.valueError) = Except.error _
      cases ha : alookup fields "id" with
      | none => rfl
      | some v =>
        cases v with
        | str s => exact absurd ha (hno s)
        | null => rfl
        | bool b => rfl
        | num n => rfl
        | arr l => rfl
        | obj l => rfl
    · cases p with
      | obj fields => exact absurd rfl (hnobj fields)
      | null => rfl
      | bool b => rfl
      | num n => rfl
      | str s => rfl
      | arr l => rfl

/-- C8 witness: the three behaviours at concrete responses. -/
theorem claim_C8_witness :
    fetchProjectId (.ok (Json.obj [("id", Json.str "10007")])) = .ok "10007" ∧
    fetchProjectId (.error (.http 403)) = .error (.transport (.http 403)) ∧
    fetchProjectId (.ok (Json.obj [("id", Json.num 3)])) = .error .valueError := by
  refine ⟨claim_C8_project_id.2.1 [("id", Json.str "10007")] "10007" rfl,
    claim_C8_project_id.1 (.http 403),
    claim_C8_project_id.2.2.1 (Json.obj [("id", Json.num 3)])
      (Or.inl ⟨[("id", Json.num 3)], rfl, fun s hcon => ?_⟩)⟩
  exact Json.noConfusion (Option.some.inj hcon)

/-- Looking a key up in a concatenation tries the left bindings first. -/
theorem alookup_append {α : Type} (l l' : List (String × α)) (k : String) :
    alookup (l ++ l') k =
      (match alookup l k with
       | some x => some x
       | none => alookup l' k) := by
  induction l with
  | nil => rfl
  | cons kv rest ih =>
    obtain ⟨a, b⟩ := kv
    show (if a = k then some b else alookup (rest ++ l') k) = _
    by_cases h : a = k
    · rw [if_pos h]
      show some b = (match (if a = k then some b else alookup rest k) with
        | some x => some x
        | none => alookup l' k)
      rw [if_pos h]
    · rw [if_neg h, ih]
      show _ = (match (if a = k then some b else alookup rest k) with
        | some x => some x
        | none => alookup l' k)
      rw [if_neg h]

/-- A successful lookup pinpoints a binding of the list. -/
theorem alookup_some_mem {α : Type} {l : List (String × α)} {k : String} {v : α}
    (h : alookup l k = some v) : (k, v) ∈ l := by
  induction l with
  | nil => exact absurd h (by simp [alookup])
  | cons kv rest ih =>
    obtain ⟨a, b⟩ := kv
    by_cases ha : a = k
    · have hb : some b = some v := by
        rw [← h]
        show some b = (if a = k then some b else alookup rest k)
        rw [if_pos ha]
      rw [Option.some.injEq] at hb
      subst hb
      subst ha
      exact List.mem_cons_self _ _
    · have h' : alookup rest k = some v := by
        rw [← h]
        show alookup rest k = (if a = k then some b else alookup rest k)
        rw [if_neg ha]
      exact List.mem_cons_of_mem _ (ih h')

/-- The cache step preserves the cache/log invariants and returns the
oracle's transitions for the resolved workflow name. -/
theorem transitionsForWorkflow_invariant
    (fetchTrans : String → List WorkflowTransition) (st : AssembleState)
    (wn : Option String)
    (h1 : st.fetchLog.Nodup)
    (h2 : ∀ k ∈ st.fetchLog, (alookup st.cache k).isSome)
    (h3 : ∀ kv ∈ st.cache, kv.2 = fetchTrans kv.1) :
    (transitionsForWorkflow fetchTrans st wn).2.2.Nodup ∧
    (∀ k ∈ (transitionsForWorkflow fetchTrans st wn).2.2,
      (alookup (transitionsForWorkflow fetchTrans st wn).2.1 k).isSome) ∧
    (∀ kv ∈ (transitionsForWorkflow fetchTrans st wn).2.1,
      kv.2 = fetchTrans kv.1) ∧
    (∀ w, wn = some w → w ≠ "" →
      (transitionsForWorkflow fetchTrans st wn).1 = fetchTrans w) := by
  unfold transitionsForWorkflow
  by_cases hw : truthyStrOpt wn
  · rw [if_pos hw]
    dsimp only
    cases hc : alookup st.cache (wn.getD "") with
    | some cached =>
      refine ⟨h1, h2, h3, ?_⟩
      intro w hwn _
      subst hwn
      exact h3 _ (alookup_some_mem hc)
    | none =>
      have hnotlog : wn.getD "" ∉ st.fetchLog := by
        intro hmem
        have := h2 _ hmem
        rw [hc] at this
        exact absurd this (by simp)
      refine ⟨?_, ?_, ?_, ?_⟩
      · rw [List.nodup_append]
        exact ⟨h1, List.nodup_singleton _,
          fun a ha hb => by
            rw [List.mem_singleton] at hb
            subst hb
            exact hnotlog ha⟩
      · intro k hk
        rw [alookup_append]
        rcases List.mem_append.mp hk with hk | hk
        · cases h : alookup st.cache k with
          | some x => simp
          | none =>
            have := h2 k hk
            rw [h] at this
            exact absurd this (by simp)
        · rw [List.mem_singleton] at hk
          subst hk
          rw [hc]
          show (if wn.getD "" = wn.getD "" then
            some (fetchTrans (wn.getD "")) else none).isSome = true
          rw [if_pos rfl]
          rfl
      · intro kv hkv
        rcases List.mem_append.mp hkv with hkv | hkv
        · exact h3 kv hkv
        · rw [List.mem_singleton] at hkv
          subst hkv
          rfl
      · intro w hwn _
        subst hwn
        rfl
  · rw [if_neg hw]
    refine ⟨h1, h2, h3, ?_⟩
    intro w hwn hne
    subst hwn
    exact absurd (show truthyStrOpt (some w) = true by
      show (w != "") = true
      exact bne_iff_ne.mpr hne) hw

/-- One issue-type step preserves the assembly invariants: the fetch
log stays duplicate-free, every logged name is cached, every cache
entry holds the oracle's transitions, and every emitted status with a
truthy workflow name carries the oracle's transitions for it. -/
theorem assembleStep_invariant (fetchTrans : String → List WorkflowTransition)
    (itw : List (String × String)) (dw : Option String) (it : Json)
    (st : AssembleState)
    (h1 : st.fetchLog.Nodup)
    (h2 : ∀ k ∈ st.fetchLog, (alookup st.cache k).isSome)
    (h3 : ∀ kv ∈ st.cache, kv.2 = fetchTrans kv.1)
    (h4 : ∀ s ∈ st.statuses, ∀ w, s.workflow_name = some w → w ≠ "" →
      s.transitions = fetchTrans w) :
    (assembleStep fetchTrans itw dw st it).fetchLog.Nodup ∧
    (∀ k ∈ (assembleStep fetchTrans itw dw st it).fetchLog,
      (alookup (assembleStep fetchTrans itw dw st it).cache k).isSome) ∧
    (∀ kv ∈ (assembleStep fetchTrans itw dw st it).cache,
      kv.2 = fetchTrans kv.1) ∧
    (∀ s ∈ (assembleStep fetchTrans itw dw st it).statuses, ∀ w,
      s.workflow_name = some w → w ≠ "" → s.transitions = fetchTrans w) := by
  cases it with
  | null => exact ⟨h1, h2, h3, h4⟩
  | bool b => exact ⟨h1, h2, h3, h4⟩
  | num n => exact ⟨h1, h2, h3, h4⟩
  | str s => exact ⟨h1, h2, h3, h4⟩
  | arr l => exact ⟨h1, h2, h3, h4⟩
  | obj itFields =>
    simp only [assembleStep]
    cases hname : alookup itFields "name" with
    | none => exact ⟨h1, h2, h3, h4⟩
    | some v =>
      cases v with
      | null => exact ⟨h1, h2, h3, h4⟩
      | bool b => exact ⟨h1, h2, h3, h4⟩
      | num n => exact ⟨h1, h2, h3, h4⟩
      | arr l => exact ⟨h1, h2, h3, h4⟩
      | obj l => exact ⟨h1, h2, h3, h4⟩
      | str issueTypeName =>
        dsimp only
        by_cases he : issueTypeName = ""
        · rw [if_pos he]
          exact ⟨h1, h2, h3, h4⟩
        · rw [if_neg he]
          dsimp only
          obtain ⟨g1, g2, g3, g4⟩ := transitionsForWorkflow_invariant fetchTrans st
            (resolveWorkflowName itw dw
              (match alookup itFields "id" with
               | some (.str s) => some s
               | _ => none)) h1 h2 h3
          refine ⟨g1, g2, g3, ?_⟩
          intro s hs w hw hne
          rcases List.mem_append.mp hs with hs | hs
          · exact h4 s hs w hw hne
          · rw [List.mem_singleton] at hs
            subst hs
            exact g4 w hw hne

/-- The assembly invariants hold after folding any issue-type payload
from any invariant-satisfying start state. -/
theorem assembleFold_invariant (fetchTrans : String → List WorkflowTransition)
    (itw : List (String × String)) (dw : Option String)
    (payload : List Json) :
    ∀ st : AssembleState,
      st.fetchLog.Nodup →
      (∀ k ∈ st.fetchLog, (alookup st.cache k).isSome) →
      (∀ kv ∈ st.cache, kv.2 = fetchTrans kv.1) →
      (∀ s ∈ st.statuses, ∀ w, s.workflow_name = some w → w ≠ "" →
        s.transitions = fetchTrans w) →
      ((payload.foldl (assembleStep fetchTrans itw dw) st).fetchLog.Nodup ∧
       (∀ s ∈ (payload.foldl (assembleStep fetchTrans itw dw) st).statuses,
         ∀ w, s.workflow_name = some w → w ≠ "" →
           s.transitions = fetchTrans w)) := by
  induction payload with
  | nil => exact fun st a _ _ d => ⟨a, d⟩
  | cons it rest ih =>
    intro st h1 h2 h3 h4
    obtain ⟨g1, g2, g3, g4⟩ := assembleStep_invariant fetchTrans itw dw it st h1 h2 h3 h4
    exact ih (assembleStep fetchTrans itw dw st it) g1 g2 g3 g4

/-- C7: over one whole assembly run, the remote transition fetch is
performed at most once per workflow name (the run's fetch log has no
duplicates), and every emitted issue type whose resolved workflow name
is `w` carries exactly the fetched transitions for `w` — so issue types
sharing a workflow receive the same list, the later ones from the
cache. -/
theorem claim_C7_workflow_cache (fetchTrans : String → List WorkflowTransition)
    (itw : List (String × String)) (dw : Option String)
    (payload : List Json) :
    (assembleProjectStatuses fetchTrans itw dw payload).fetchLog.Nodup ∧
    (∀ s ∈ (assembleProjectStatuses fetchTrans itw dw payload).statuses,
      ∀ w, s.workflow_name = some w → w ≠ "" →
        s.transitions = fetchTrans w) := by
  exact assembleFold_invariant fetchTrans itw dw payload ⟨[], [], []⟩
    List.nodup_nil (by simp) (by simp) (by simp)

/-- Two issue types which both resolve to the scheme's default
workflow. -/
def issueTypePayloadSample : List Json :=
  [Json.obj [("name", Json.str "Bug"), ("id", Json.str "1"),
             ("statuses", Json.arr [Json.obj [("name", Json.str "To Do")]])],
   Json.obj [("name", Json.str "Task"), ("id", Json.str "2")]]

/-- C7 witness: on the two-issue-type sample, the fetch log stays
duplicate-free (it is in fact the single entry for the shared default
workflow) and both emitted issue types carry the oracle's transitions
for that workflow. -/
theorem claim_C7_witness :
    (assembleProjectStatuses (fun _ => [wildcardSample]) [] (some "Default Workflow")
        issueTypePayloadSample).fetchLog.Nodup ∧
    (assembleProjectStatuses (fun _ => [wildcardSample]) [] (some "Default Workflow")
        issueTypePayloadSample).fetchLog = ["Default Workflow"] ∧
    (∀ s ∈ (assembleProjectStatuses (fun _ => [wildcardSample]) []
        (some "Default Workflow") issueTypePayloadSample).statuses,
      s.transitions = [wildcardSample]) := by
  have h := claim_C7_workflow_cache (fun _ => [wildcardSample]) []
    (some "Default Workflow") issueTypePayloadSample
  refine ⟨h.1, rfl, ?_⟩
  intro s hs
  have hst : (assembleProjectStatuses (fun _ => [wildcardSample]) []
      (some "Default Workflow") issueTypePayloadSample).statuses =
      [{ issue_type := "Bug", available_statuses := ["To Do"],
         workflow_name := some "Default Workflow",
         transitions := [wildcardSample] },
       { issue_type := "Task", available_statuses := [],
         workflow_name := some "Default Workflow",
         transitions := [wildcardSample] }] := rfl
  rw [hst] at hs
  rcases List.mem_cons.mp hs with heq | hs
  · subst heq
    exact h.2 _ (by rw [hst]; exact List.mem_cons_self _ _) "Default Workflow" rfl
      (by decide)
  · rcases List.mem_cons.mp hs with heq | hs
    · subst heq
      exact h.2 _ (by rw [hst]; exact List.mem_cons_of_mem _ (List.mem_cons_self _ _))
        "Default Workflow" rfl (by decide)
    · exact absurd hs (by simp)

/-- A continuing round contributes its issues and hands control to the
next round. -/
theorem collect_continue (r : PageResult) (h : continuesRound r = true) :
    ∀ (acc : List Json) (rest : List PageResult),
      collectIssuesLoop acc (r :: rest)
        = collectIssuesLoop (acc ++ pageIssues r) rest := by
  cases r with
  | exn => exact absurd h (by simp [continuesRound])
  | resp status data =>
    intro acc rest
    unfold continuesRound at h
    rw [Bool.and_eq_true, Bool.and_eq_true] at h
    obtain ⟨⟨h1, h2⟩, h3⟩ := h
    rw [beq_iff_eq] at h1
    subst h1
    conv_lhs => rw [collectIssuesLoop]
    dsimp only
    rw [if_neg (fun hc : (200 : Nat) ≠ 200 => hc rfl)]
    cases hiss : (jget data "issues").getD (Json.arr []) with
    | arr items =>
      cases items with
      | nil => rw [hiss] at h2; exact absurd h2 (by simp)
      | cons x xs =>
        rw [if_pos (show truthy (Json.arr (x :: xs)) = true from rfl)]
        dsimp only
        have hpi : pageIssues (.resp 200 data) = x :: xs := by
          simp only [pageIssues]
          rw [hiss]
        cases htok : jget data "nextPageToken" with
        | none => rw [htok] at h3; exact absurd h3 (by simp)
        | some tok =>
          rw [htok] at h3
          have h3' : truthy tok = true := h3
          dsimp only
          rw [if_pos h3', hpi]
    | null => rw [hiss] at h2; exact absurd h2 (by simp)
    | bool b => rw [hiss] at h2; exact absurd h2 (by simp)
    | num n => rw [hiss] at h2; exact absurd h2 (by simp)
    | str s => rw [hiss] at h2; exact absurd h2 (by simp)
    | obj l => rw [hiss] at h2; exact absurd h2 (by simp)

/-- A terminal round contributes its issues and stops the loop. -/
theorem collect_final (r : PageResult) (h : finalRound r = true) :
    ∀ (acc : List Json) (rest : List PageResult),
      collectIssuesLoop acc (r :: rest) = acc ++ pageIssues r := by
  cases r with
  | exn => exact absurd h (by simp [finalRound])
  | resp status data =>
    intro acc rest
    unfold finalRound at h
    rw [Bool.and_eq_true, Bool.and_eq_true] at h
    obtain ⟨⟨h1, h2⟩, h3⟩ := h
    rw [beq_iff_eq] at h1
    subst h1
    conv_lhs => rw [collectIssuesLoop]
    dsimp only
    rw [if_neg (fun hc : (200 : Nat) ≠ 200 => hc rfl)]
    cases hiss : (jget data "issues").getD (Json.arr []) with
    | arr items =>
      cases items with
      | nil => rw [hiss] at h2; exact absurd h2 (by simp)
      | cons x xs =>
        rw [if_pos (show truthy (Json.arr (x :: xs)) = true from rfl)]
        dsimp only
        have hpi : pageIssues (.resp 200 data) = x :: xs := by
          simp only [pageIssues]
          rw [hiss]
        cases htok : jget data "nextPageToken" with
        | none =>
          show acc ++ x :: xs = acc ++ pageIssues (PageResult.resp 200 data)
          rw [hpi]
        | some tok =>
          rw [htok] at h3
          have h3' : truthy tok = false := by
            have hx : (!truthy tok) = true := h3
            rw [Bool.not_eq_true'] at hx
            exact hx
          show (if truthy tok = true then collectIssuesLoop (acc ++ x :: xs) rest
                else acc ++ x :: xs) = acc ++ pageIssues (PageResult.resp 200 data)
          rw [h3', if_neg (fun hc => Bool.false_ne_true hc), hpi]
    | null => rw [hiss] at h2; exact absurd h2 (by simp)
    | bool b => rw [hiss] at h2; exact absurd h2 (by simp)
    | num n => rw [hiss] at h2; exact absurd h2 (by simp)
    | str s => rw [hiss] at h2; exact absurd h2 (by simp)
    | obj l => rw [hiss] at h2; exact absurd h2 (by simp)

/-- Collecting well-formed pages that end in a terminal page gathers
every page's issues in request order, from any accumulator. -/
theorem collect_pages (pages : List PageResult) (lastR : PageResult)
    (hcont : ∀ p ∈ pages, continuesRound p = true)
    (hfin : finalRound lastR = true) :
    ∀ acc, collectIssuesLoop acc (pages ++ [lastR])
      = acc ++ pages.flatMap pageIssues ++ pageIssues lastR := by
  induction pages with
  | nil =>
    intro acc
    rw [List.nil_append, collect_final lastR hfin acc []]
    simp
  | cons p rest ih =>
    intro acc
    rw [List.cons_append,
      collect_continue p (hcont p (List.mem_cons_self p rest)) acc (rest ++ [lastR]),
      ih (fun q hq => hcont q (List.mem_cons_of_mem p hq)) (acc ++ pageIssues p)]
    rw [List.flatMap_cons]
    simp [List.append_assoc]

/-- C9 counterexample: a 200 response with a non-empty issues array and
`nextPageToken` present but equal to `""` terminates the loop (the
source tests the token's truthiness, not its presence), so the
well-formed follow-up page is never collected — contradicting the
claim's "terminates exactly when a response omits nextPageToken,
returns an empty issues array, returns a non-200 status, or an
exception occurs". -/
theorem claim_C9_counterexample :
    jget (Json.obj [("issues", Json.arr [Json.str "PROJ-1"]),
                    ("nextPageToken", Json.str "")]) "nextPageToken"
      = some (Json.str "") ∧
    collectIssues
      [PageResult.resp 200 (Json.obj [("issues", Json.arr [Json.str "PROJ-1"]),
                                      ("nextPageToken", Json.str "")]),
       PageResult.resp 200 (Json.obj [("issues", Json.arr [Json.str "PROJ-2"])])]
      = [Json.str "PROJ-1"] := ⟨rfl, rfl⟩

/-- C9 (amended): the pagination loop stops exactly on an exception, a
non-200 status, an empty-or-absent issues array, or a response without
a truthy `nextPageToken` (absent or falsy, e.g. the empty string); a
well-formed 200 round with non-empty issues and a truthy token
continues; and for every finite sequence of continuing rounds ending in
a terminal round, every round's issues are collected exactly once, in
request order. -/
theorem claim_C9_pagination :
    (∀ (acc : List Json) (rest : List PageResult),
      collectIssuesLoop acc (.exn :: rest) = acc) ∧
    (∀ (acc : List Json) (status : Nat) (data : Json) (rest : List PageResult),
      status ≠ 200 → collectIssuesLoop acc (.resp status data :: rest) = acc) ∧
    (∀ (acc : List Json) (data : Json) (rest : List PageResult),
      (jget data "issues").getD (Json.arr []) = Json.arr [] →
      collectIssuesLoop acc (.resp 200 data :: rest) = acc) ∧
    (∀ r : PageResult, finalRound r = true →
      ∀ (acc : List Json) (rest : List PageResult),
        collectIssuesLoop acc (r :: rest) = acc ++ pageIssues r) ∧
    (∀ r : PageResult, continuesRound r = true →
      ∀ (acc : List Json) (rest : List PageResult),
        collectIssuesLoop acc (r :: rest)
          = collectIssuesLoop (acc ++ pageIssues r) rest) ∧
    (∀ (pages : List PageResult) (lastR : PageResult),
      (∀ p ∈ pages, continuesRound p = true) → finalRound lastR = true →
      collectIssues (pages ++ [lastR])
        = pages.flatMap pageIssues ++ pageIssues lastR) := by
  refine ⟨fun acc rest => rfl, ?_, ?_, collect_final, collect_continue, ?_⟩
  · intro acc status data rest h
    conv_lhs => rw [collectIssuesLoop]
    dsimp only
    rw [if_pos h]
  · intro acc data rest h
    conv_lhs => rw [collectIssuesLoop]
    dsimp only
    rw [if_neg (fun hc : (200 : Nat) ≠ 200 => hc rfl), h]
    rw [if_neg (fun hc : truthy (Json.arr []) = true => by
      exact absurd hc (by simp [truthy]))]
  · intro pages lastR hcont hfin
    have h := collect_pages pages lastR hcont hfin []
    rw [collectIssues, h, List.nil_append]

/-- A continuing round and a terminal round for the witness. -/
def contRoundSample : PageResult :=
  .resp 200 (Json.obj [("issues", Json.arr [Json.str "PROJ-10"]),
                       ("nextPageToken", Json.str "tok1")])

/-- The terminal round of the witness: no `nextPageToken` at all. -/
def lastRoundSample : PageResult :=
  .resp 200 (Json.obj [("issues", Json.arr [Json.str "PROJ-11"])])

/-- C9 witness: the amended pagination theorem applied to one
continuing round followed by one terminal round. -/
theorem claim_C9_witness :
    collectIssues [contRoundSample, lastRoundSample]
      = [Json.str "PROJ-10", Json.str "PROJ-11"] ∧
    collectIssuesLoop [] [PageResult.exn] = [] := by
  refine ⟨?_, claim_C9_pagination.1 [] []⟩
  have h := claim_C9_pagination.2.2.2.2.2 [contRoundSample] lastRoundSample
    (fun p hp => by
      rw [List.mem_singleton] at hp
      subst hp
      decide)
    (by decide)
  rw [show [contRoundSample, lastRoundSample]
      = [contRoundSample] ++ [lastRoundSample] from rfl, h]
  rfl
